import Mathlib

/-!
Verification of the protective fetch pipeline and lake writer of
`public-finance-data-hub`, shallowly embedded from the Python sources
(`core/rate_limiter.py`, `core/cache.py`, `utils/http.py`,
`sources/base_source.py`, `storage/lake.py`).  Timestamps are modelled
as rationals (seconds); filesystem state is modelled explicitly and
environment-dependent failures (corrupt cache files, failed writes,
network outcomes) are explicit parameters.
-/

namespace PFDH

/-! ## RequestRateLimiter (core/rate_limiter.py lines 20-68)

`self.requests` is a `deque(maxlen=self.max_requests)` of admission
timestamps, oldest first. -/

/-- `collections.deque(maxlen=m).append t`: when the deque is full the
leftmost element is silently discarded; a `maxlen=0` deque stays empty. -/
def dequeAppend (maxlen : ℕ) (q : List ℚ) (t : ℚ) : List ℚ :=
  if maxlen = 0 then []
  else if q.length < maxlen then q ++ [t]
  else q.drop 1 ++ [t]

/-- The eviction loop `while self.requests and self.requests[0] < now - 60:
self.requests.popleft()` of `wait_if_needed`. -/
def evictOld (now : ℚ) (q : List ℚ) : List ℚ :=
  q.dropWhile (fun t => decide (t < now - 60))

/-- `RequestRateLimiter.wait_if_needed`.  `now` is the `time.time()` read at
entry; `now2` is the `time.time()` read at the final `append` (after the
optional `time.sleep`).  Returns the new queue and the slept time.
The `[]` arm of the full branch corresponds to `self.requests[0]` raising
`IndexError` in Python; it is unreachable when `max_requests ≥ 1`. -/
def waitIfNeeded (maxReq : ℕ) (q : List ℚ) (now now2 : ℚ) : List ℚ × ℚ :=
  let q1 := evictOld now q
  let sleepT : ℚ :=
    if maxReq ≤ q1.length then
      match q1 with
      | [] => 0
      | t0 :: _ => 60 - (now - t0) + 1 / 10
    else 0
  (dequeAppend maxReq q1 now2, sleepT)

/-- Run a sequence of `wait_if_needed` calls from queue `q`.  Each call is a
pair of clock readings `(now, now2)`.  Returns the final queue together with
the list of recorded admission timestamps (each call appends `now2`). -/
def runCalls (maxReq : ℕ) (q : List ℚ) : List (ℚ × ℚ) → List ℚ × List ℚ
  | [] => (q, [])
  | (now, now2) :: rest =>
    let w := waitIfNeeded maxReq q now now2
    let r := runCalls maxReq w.1 rest
    (r.1, now2 :: r.2)

/-- A call trace is valid when the wall clock is monotone across calls and the
second clock reading of each call accounts for the time slept inside it
(`time.sleep(sleep_time)` suspends the thread for at least `sleep_time`). -/
def ValidTrace (maxReq : ℕ) (q : List ℚ) (tcur : ℚ) : List (ℚ × ℚ) → Prop
  | [] => True
  | (now, now2) :: rest =>
    tcur ≤ now ∧ now + (waitIfNeeded maxReq q now now2).2 ≤ now2 ∧
      ValidTrace maxReq (waitIfNeeded maxReq q now now2).1 now2 rest

/-- Number of timestamps of `l` inside the closed trailing window `[t-60, t]`. -/
def countWindow (t : ℚ) (l : List ℚ) : ℕ :=
  l.countP (fun x => decide (t - 60 ≤ x ∧ x ≤ t))

/-! ## ExponentialBackoffRetry (core/rate_limiter.py lines 104-183) -/

/-- `ExponentialBackoffRetry.get_delay`: `delay = base * 2**attempt`, then
`delay *= jitter` with `jitter = random.uniform(0.9, 1.1)` (passed here as the
explicit draw `jitter`), then `delay = min(delay, max_delay)`. -/
def get_delay (base_delay max_delay : ℚ) (attempt : ℕ) (jitter : ℚ) : ℚ :=
  let delay := base_delay * 2 ^ attempt
  let delay := delay * jitter
  let delay := min delay max_delay
  delay

/-- The `for attempt in range(max_retries)` loop of `execute_with_retry`.
`remaining` is the number of loop iterations left, `attempt` the current loop
index, `last` the current `last_exception` (`none` = Python `None`).  The
operation `f` is indexed by invocation count; `.error` models a raised
exception.  The overall result is `.error none` when the loop body never ran
and the trailing `raise last_exception` re-raises `None`.  The second
component counts invocations of `f`. -/
def retryLoop (f : ℕ → Except E A) (maxRetries : ℕ) :
    ℕ → ℕ → Option E → Except (Option E) A × ℕ
  | 0, attempt, last => (.error last, attempt)
  | remaining + 1, attempt, _ =>
    match f attempt with
    | .ok a => (.ok a, attempt + 1)
    | .error e =>
      if attempt = maxRetries - 1 then (.error (some e), attempt + 1)
      else retryLoop f maxRetries remaining (attempt + 1) (some e)

/-- `ExponentialBackoffRetry.execute_with_retry`: run the loop over
`range(max_retries)` starting with `last_exception = None`. -/
def executeWithRetry (maxRetries : ℕ) (f : ℕ → Except E A) :
    Except (Option E) A × ℕ :=
  retryLoop f maxRetries maxRetries 0 none

/-! ## APICache (core/cache.py lines 20-132)

One JSON file per cache key.  A file is either a well-formed entry
`{_created_at, _url, _params, data}` (the stored `data` may itself be Python
`None`, modelled by `Option P`) or `corrupt` (any file whose `open`/
`json.load`/`fromisoformat` raises).  Keys are abstract (the MD5 digest of
URL + canonically serialized params). -/

/-- One cache file on disk. -/
inductive CacheFile (P : Type) where
  | entry (created : ℚ) (data : Option P)
  | corrupt
deriving DecidableEq

/-- State of one `APICache` instance: the `enabled` flag, the TTL in seconds
(`default_ttl`), and the files of `cache_dir`. -/
structure CacheState (K P : Type) where
  enabled : Bool
  ttl : ℚ
  files : K → Option (CacheFile P)

/-- Cache read/write failures (any `Exception` caught by `get`/`set`). -/
inductive CacheErr where
  | readFailed
  | writeFailed
deriving DecidableEq

/-- Remove the cache file of key `k` (`cache_file.unlink()`). -/
def eraseFile [DecidableEq K] (files : K → Option (CacheFile P)) (k : K) :
    K → Option (CacheFile P) :=
  fun j => if j = k then none else files j

/-- Store a cache file at key `k` (overwriting any previous one). -/
def putFile [DecidableEq K] (files : K → Option (CacheFile P)) (k : K)
    (f : CacheFile P) : K → Option (CacheFile P) :=
  fun j => if j = k then some f else files j

/-- The `try` body of `APICache.get`, entered only when the cache file
exists: load the file (raising on a corrupt one), evict and miss when
`datetime.now() - created_at > self.default_ttl`, otherwise return the stored
`data` field. -/
def cacheGetTry [DecidableEq K] (st : CacheState K P) (k : K) (now : ℚ) :
    Except CacheErr (Option P × CacheState K P) :=
  match st.files k with
  | none => .ok (none, st)
  | some .corrupt => .error .readFailed
  | some (.entry created data) =>
    if st.ttl < now - created then
      .ok (none, { st with files := eraseFile st.files k })
    else
      .ok (data, st)

namespace APICache

/-- `APICache.get`: disabled cache and missing file return `None` outside the
`try`; any exception inside the `try` is caught, logged and turned into a
miss with the state unchanged. -/
def get [DecidableEq K] (st : CacheState K P) (k : K) (now : ℚ) :
    Option P × CacheState K P :=
  if !st.enabled then (none, st)
  else
    match st.files k with
    | none => (none, st)
    | some _ =>
      match cacheGetTry st k now with
      | .ok r => r
      | .error _ => (none, st)

/-- The `try` body of `APICache.set`: write the entry file; `writeOk = false`
models `open`/`json.dump` raising (disk error), in which case nothing is
written. -/
def setTry [DecidableEq K] (st : CacheState K P) (k : K) (now : ℚ)
    (data : Option P) (writeOk : Bool) : Except CacheErr (Bool × CacheState K P) :=
  if writeOk then .ok (true, { st with files := putFile st.files k (.entry now data) })
  else .error .writeFailed

/-- `APICache.set`: returns `False` without writing when disabled; catches
any exception from the write and returns `False` with the state unchanged. -/
def set [DecidableEq K] (st : CacheState K P) (k : K) (now : ℚ)
    (data : Option P) (writeOk : Bool) : Bool × CacheState K P :=
  if !st.enabled then (false, st)
  else
    match setTry st k now data writeOk with
    | .ok r => r
    | .error _ => (false, st)

end APICache

/-! ## CachedHTTPClient (utils/http.py lines 17-135)

Its private cache stores `{timestamp, content}` with `content : str`. -/

/-- One cache file of `CachedHTTPClient` (`corrupt` = `json.loads` or
`fromisoformat` raises on it). -/
inductive HttpFile where
  | entry (created : ℚ) (content : String)
  | corrupt
deriving DecidableEq

/-- State of one `CachedHTTPClient`: whether `cache_dir` was configured, the
`cache_ttl` in seconds, and the cache files. -/
structure HttpState (K : Type) where
  hasCacheDir : Bool
  ttl : ℚ
  files : K → Option HttpFile

/-- Errors that escape `CachedHTTPClient.get`. -/
inductive HttpErr where
  | cacheParse
  | netFail
  | statusError (code : ℕ)
deriving DecidableEq

/-- Outcome of `self.session.get(...)`: a response with a status code and
body text, or a raised transport exception (retries exhausted inside the
session adapter). -/
inductive NetOutcome where
  | resp (status : ℕ) (text : String)
  | exn
deriving DecidableEq

/-- Remove an http-cache file. -/
def hErase [DecidableEq K] (files : K → Option HttpFile) (k : K) :
    K → Option HttpFile :=
  fun j => if j = k then none else files j

/-- `CachedHTTPClient._load_from_cache`.  There is no `try/except` here: a
corrupt cache file makes `json.loads` raise and the error propagates to the
caller.  An entry older than `cache_ttl` is unlinked and reported absent. -/
def loadFromCache [DecidableEq K] (st : HttpState K) (k : K) (now : ℚ) :
    Except HttpErr (Option String × HttpState K) :=
  if !st.hasCacheDir then .ok (none, st)
  else
    match st.files k with
    | none => .ok (none, st)
    | some .corrupt => .error .cacheParse
    | some (.entry created content) =>
      if st.ttl < now - created then
        .ok (none, { st with files := hErase st.files k })
      else
        .ok (some content, st)

/-- `CachedHTTPClient._save_to_cache`: no-op without a cache dir, else write
`{timestamp: now, content}` at the key. -/
def saveToCache [DecidableEq K] (st : HttpState K) (k : K) (now : ℚ)
    (content : String) : HttpState K :=
  if !st.hasCacheDir then st
  else { st with files := fun j => if j = k then some (.entry now content) else st.files j }

/-- A `requests.Response` as observed by callers of `CachedHTTPClient.get`,
with the branch that produced it. -/
structure HttpResp where
  status : ℕ
  text : String
  fromCache : Bool
deriving DecidableEq

/-- The network phase of `CachedHTTPClient.get`: `self.session.get` (which
may raise), `response.raise_for_status()` (raises for status ≥ 400), then
`_save_to_cache` when `use_cache` and the status is 200. -/
def netRequest [DecidableEq K] (useCache : Bool) (k : K) (net : NetOutcome)
    (tSave : ℚ) (st : HttpState K) : Except HttpErr (HttpResp × HttpState K) :=
  match net with
  | .exn => .error .netFail
  | .resp status text =>
    if 400 ≤ status then .error (.statusError status)
    else
      let st2 := if useCache && status == 200 then saveToCache st k tSave text else st
      .ok ({ status := status, text := text, fromCache := false }, st2)

/-- `CachedHTTPClient.get`: when `use_cache`, `_load_from_cache` runs first
(its exceptions propagate); a truthy cached string (`if cached_content:`,
i.e. non-`None` and non-empty) is served as a synthetic 200 response;
otherwise the network phase runs. -/
def chcGet [DecidableEq K] (st : HttpState K) (k : K) (useCache : Bool)
    (now : ℚ) (net : NetOutcome) (tSave : ℚ) :
    Except HttpErr (HttpResp × HttpState K) :=
  if useCache then
    match loadFromCache st k now with
    | .error e => .error e
    | .ok (some c, st1) =>
      if c = "" then netRequest useCache k net tSave st1
      else .ok ({ status := 200, text := c, fromCache := true }, st1)
    | .ok (none, st1) => netRequest useCache k net tSave st1
  else netRequest useCache k net tSave st

/-! ## BaseSource._fetch_with_protection (sources/base_source.py lines 57-100)

Composes `APICache.get`, `CombinedRateLimiter.execute` (= `wait_if_needed`,
`DelayedRequester.sleep`, `execute_with_retry`, rate_limiter.py lines
210-226) and `APICache.set`.  `sleepCount` counts `DelayedRequester.sleep`
calls and `invokeCount` counts invocations of the fetch operation by the
retrier; both are direct observations of the side effects. -/

/-- Mutable state touched by one `BaseSource`: its limiter's timestamp deque,
delayer/operation call counters, and the cache files. -/
structure SourceState (K P : Type) where
  limiterQueue : List ℚ
  sleepCount : ℕ
  invokeCount : ℕ
  cache : CacheState K P

/-- The clock readings consumed by one `_fetch_with_protection` call:
`datetime.now()` inside `cache.get`, the two `time.time()` reads of
`wait_if_needed`, and `datetime.now()` inside `cache.set`. -/
structure FetchTimes where
  tGet : ℚ
  tNow : ℚ
  tNow2 : ℚ
  tSet : ℚ

/-- Steps 2-3 of `_fetch_with_protection`: `self.rate_limiter.execute`
(admission, jittered sleep, retry) followed by `self.cache.set` on success
when `use_cache and self.cache`. -/
def fetchMissPath [DecidableEq K] (maxReq maxRetries : ℕ)
    (useCache hasCache writeOk : Bool) (k : K) (op : ℕ → Except E (Option P))
    (tm : FetchTimes) (st : SourceState K P) :
    Except (Option E) (Option P) × SourceState K P :=
  let w := waitIfNeeded maxReq st.limiterQueue tm.tNow tm.tNow2
  let st1 := { st with limiterQueue := w.1, sleepCount := st.sleepCount + 1 }
  let rr := executeWithRetry maxRetries op
  let st2 := { st1 with invokeCount := st1.invokeCount + rr.2 }
  match rr.1 with
  | .error e => (.error e, st2)
  | .ok data =>
    if useCache && hasCache then
      (.ok data, { st2 with cache := (APICache.set st2.cache k tm.tSet data writeOk).2 })
    else (.ok data, st2)

/-- `BaseSource._fetch_with_protection`: consult the cache first when
`use_cache and self.cache`; a non-`None` cached value returns immediately;
otherwise run the protected miss path. -/
def fetchWithProtection [DecidableEq K] (maxReq maxRetries : ℕ)
    (useCache hasCache writeOk : Bool) (k : K) (op : ℕ → Except E (Option P))
    (tm : FetchTimes) (st : SourceState K P) :
    Except (Option E) (Option P) × SourceState K P :=
  if useCache && hasCache then
    let r := APICache.get st.cache k tm.tGet
    match r.1 with
    | some v => (.ok (some v), { st with cache := r.2 })
    | none => fetchMissPath maxReq maxRetries useCache hasCache writeOk k op tm
        { st with cache := r.2 }
  else fetchMissPath maxReq maxRetries useCache hasCache writeOk k op tm st

/-! ## DataLake (storage/lake.py lines 45-277)

A pandas DataFrame is abstracted by its row count and column set —
the two observations the spec's round-trip property is about.
`pd.concat(dfs, ignore_index=True)` sums row counts and takes the union of
the column sets. -/

/-- Abstraction of a `pd.DataFrame`. -/
structure DataFrame where
  rows : ℕ
  cols : Finset String
deriving DecidableEq

/-- `pd.DataFrame()`, the empty frame returned when a dataset has no files. -/
def emptyFrame : DataFrame := { rows := 0, cols := ∅ }

/-- `pd.concat(dfs, ignore_index=True)` on the frame abstraction. -/
def concatFrames (dfs : List DataFrame) : DataFrame :=
  { rows := (dfs.map (fun d => d.rows)).sum
    cols := dfs.foldr (fun d acc => d.cols ∪ acc) ∅ }

/-- `date.year`/`date.month`/`date.day` of a `datetime.date`. -/
structure PDate where
  year : ℕ
  month : ℕ
  day : ℕ
deriving DecidableEq

/-- Left-pad the decimal digits of `n` with zeros to width `w`
(`strftime` zero-padding). -/
def padNum (w : ℕ) (n : ℕ) : String :=
  let s := toString n
  String.mk (List.replicate (w - s.length) '0') ++ s

/-- `period_date.strftime("%Y%m%d")`. -/
def stampYmd (d : PDate) : String :=
  padNum 4 d.year ++ padNum 2 d.month ++ padNum 2 d.day

/-- Path of one curated parquet file:
`curated/<domain>/<dataset>/year=<year>/month=<month>/<file>`. -/
structure CuratedPath where
  domain : String
  dataset : String
  year : ℕ
  month : ℕ
  fileName : String
deriving DecidableEq

/-- The curated area of the lake: the parquet files on disk. -/
abbrev CuratedStore : Type := List (CuratedPath × DataFrame)

/-- `df.to_parquet(save_path, ...)`: overwrite the file at `p`. -/
def writeParquet (store : CuratedStore) (p : CuratedPath) (df : DataFrame) :
    CuratedStore :=
  (List.filter (fun e => decide (e.1 ≠ p)) store) ++ [(p, df)]

/-- `DataLake.save_curated`: partition dir
`curated/<domain>/<dataset>/year=<Y>/month=<M>`, file
`<filename>_<YYYYMMDD>.parquet`, written with overwrite semantics.  Returns
the saved path and the new store. -/
def saveCurated (store : CuratedStore) (domain dataset : String)
    (df : DataFrame) (pdate : PDate) (filename : String) :
    CuratedPath × CuratedStore :=
  let p : CuratedPath :=
    { domain := domain, dataset := dataset, year := pdate.year,
      month := pdate.month, fileName := filename ++ "_" ++ stampYmd pdate ++ ".parquet" }
  (p, writeParquet store p df)

/-- The recursive glob `dataset_dir.rglob("*.parquet")`: every parquet file
under `curated/<domain>/<dataset>`. -/
def datasetFiles (store : CuratedStore) (domain dataset : String) :
    List (CuratedPath × DataFrame) :=
  List.filter (fun e => decide (e.1.domain = domain ∧ e.1.dataset = dataset)) store

/-- `DataLake.load_curated`: an absent dataset dir or one without parquet
files yields `pd.DataFrame()`; otherwise every partition file is read and
concatenated. -/
def loadCurated (store : CuratedStore) (domain dataset : String) : DataFrame :=
  match datasetFiles store domain dataset with
  | [] => emptyFrame
  | fs => concatFrames (fs.map (fun e => e.2))

/-- A file-metadata dict as produced by `get_file_metadata` and listed in a
manifest. -/
structure FileMeta where
  name : String
  sha256 : String
  rows : ℕ
  columns : ℕ
  size_bytes : ℕ
  created_at : String
deriving DecidableEq

/-- The JSON document written by `save_manifest`. -/
structure ManifestData where
  source : String
  dataset : String
  domain : String
  period_start : String
  period_end : String
  file_count : ℕ
  files : List FileMeta
  source_url : String
  schema_version : String
  ingestion_timestamp : String
  ingestion_status : String
deriving DecidableEq

/-- Path of one manifest file:
`manifests/<domain>/<dataset>/<source>_<YYYYMMDD_HHMMSS>.json`. -/
structure ManifestPath where
  domain : String
  dataset : String
  fileName : String
deriving DecidableEq

/-- The manifest area of the lake. -/
abbrev ManifestStore : Type := List (ManifestPath × ManifestData)

/-- `manifest_file.write_text(...)`: overwrite the file at `p`. -/
def writeManifestFile (store : ManifestStore) (p : ManifestPath)
    (m : ManifestData) : ManifestStore :=
  (List.filter (fun e => decide (e.1 ≠ p)) store) ++ [(p, m)]

/-- Contents of the manifest file at path `p`, when one exists. -/
def readManifest (store : ManifestStore) (p : ManifestPath) :
    Option ManifestData :=
  (store.find? (fun e => decide (e.1 = p))).map (fun e => e.2)

/-- `DataLake.save_manifest`: builds the manifest dict (`file_count =
len(files)`, `schema_version = "1.0"`) and writes it to
`<source>_<stamp>.json` where `stamp` is
`datetime.now().strftime("%Y%m%d_%H%M%S")` (second resolution), passed here
as the explicit clock reading `stampSec`; `nowIso` is the
`datetime.now().isoformat()` timestamp.  Returns the path and new store. -/
def saveManifest (store : ManifestStore) (source dataset domain : String)
    (period_start period_end : String) (files : List FileMeta)
    (source_url : String) (ingestion_status : String)
    (stampSec nowIso : String) : ManifestPath × ManifestStore :=
  let m : ManifestData :=
    { source := source, dataset := dataset, domain := domain,
      period_start := period_start, period_end := period_end,
      file_count := files.length, files := files, source_url := source_url,
      schema_version := "1.0", ingestion_timestamp := nowIso,
      ingestion_status := ingestion_status }
  let p : ManifestPath :=
    { domain := domain, dataset := dataset,
      fileName := source ++ "_" ++ stampSec ++ ".json" }
  (p, writeManifestFile store p m)

/-! ### Concrete fixture states (for evaluating the theorems) -/

/-- An enabled cache whose only file is a fresh entry at key 0 storing the
payload `9`, created 20 seconds before epoch, TTL 10 seconds. -/
def cacheStateA : CacheState ℕ ℕ :=
  { enabled := true, ttl := 10,
    files := fun j => if j = 0 then some (.entry (-20) (some 9)) else none }

/-- An enabled cache whose only file, at key 0, is corrupt. -/
def cacheStateB : CacheState ℕ ℕ :=
  { enabled := true, ttl := 10,
    files := fun j => if j = 0 then some .corrupt else none }

/-- An http client cache whose only file, at key 0, is corrupt. -/
def httpStateA : HttpState ℕ :=
  { hasCacheDir := true, ttl := 10,
    files := fun j => if j = 0 then some .corrupt else none }

/-- An http client cache whose only file, at key 0, stores an empty body. -/
def httpStateB : HttpState ℕ :=
  { hasCacheDir := true, ttl := 10,
    files := fun j => if j = 0 then some (.entry 0 "") else none }

/-- A source whose cache holds, at key 0, a fresh entry whose stored `data`
is Python `None`. -/
def srcStateA : SourceState ℕ ℕ :=
  { limiterQueue := [], sleepCount := 0, invokeCount := 0,
    cache := { enabled := true, ttl := 100,
               files := fun j => if j = 0 then some (.entry 0 none) else none } }

/-- A source whose cache holds, at key 0, a fresh entry storing payload 9. -/
def srcStateB : SourceState ℕ ℕ :=
  { limiterQueue := [], sleepCount := 0, invokeCount := 0,
    cache := { enabled := true, ttl := 100,
               files := fun j => if j = 0 then some (.entry 0 (some 9)) else none } }

/-- All four clock readings at the epoch. -/
def tmA : FetchTimes := { tGet := 0, tNow := 0, tNow2 := 0, tSet := 0 }

/-- A 5-row, 3-column table. -/
def dfA : DataFrame := { rows := 5, cols := {"a", "b", "c"} }

/-- A concrete file-metadata record. -/
def fmA : FileMeta :=
  { name := "f.parquet", sha256 := "abc", rows := 5, columns := 3,
    size_bytes := 100, created_at := "T" }

/-- A first manifest write into an empty manifest dir. -/
def manifestCall1 : ManifestPath × ManifestStore :=
  saveManifest [] "src" "ds" "dom" "2024-01-01" "2024-01-31" [] "u" "success"
    "20240101_120000" "T1"

/-- A second manifest write for the same source/dataset/domain whose
second-resolution timestamp collides with the first. -/
def manifestCall2 : ManifestPath × ManifestStore :=
  saveManifest manifestCall1.2 "src" "ds" "dom" "2024-01-01" "2024-01-31" [fmA]
    "u" "success" "20240101_120000" "T2"

/-! ## Theorems -/

theorem countWindow_append (s : ℚ) (l1 l2 : List ℚ) :
    countWindow s (l1 ++ l2) = countWindow s l1 + countWindow s l2 := by
  simp [countWindow, List.countP_append]

theorem countWindow_le_length (s : ℚ) (l : List ℚ) : countWindow s l ≤ l.length :=
  List.countP_le_length _

theorem countWindow_eq_zero (s : ℚ) (l : List ℚ) (h : ∀ x ∈ l, x < s - 60) :
    countWindow s l = 0 := by
  simp only [countWindow, List.countP_eq_zero]
  intro a ha
  simp only [decide_eq_true_eq, not_and]
  intro h1
  exact absurd (h a ha) (not_lt.mpr h1)

theorem countWindow_cons (s a : ℚ) (l : List ℚ) :
    countWindow s (a :: l)
      = countWindow s l + if (s - 60 ≤ a ∧ a ≤ s) then 1 else 0 := by
  simp [countWindow, List.countP_cons]
theorem dropWhile_head_pred_false {α : Type} (p : α → Bool) :
    ∀ (l : List α) {a : α} {r : List α}, l.dropWhile p = a :: r → p a = false := by
  intro l
  induction l with
  | nil => intro a r h; simp [List.dropWhile] at h
  | cons x xs ih =>
    intro a r h
    by_cases hx : p x
    · rw [List.dropWhile_cons_of_pos hx] at h
      exact ih h
    · rw [List.dropWhile_cons_of_neg hx] at h
      injection h with h1 h2
      subst h1
      simpa using hx

theorem evictOld_head_ge {now t0 : ℚ} {q r : List ℚ}
    (h : evictOld now q = t0 :: r) : now - 60 ≤ t0 := by
  have := dropWhile_head_pred_false (fun t => decide (t < now - 60)) q h
  simpa using this

theorem evictOld_split (now : ℚ) (q : List ℚ) :
    q.takeWhile (fun t => decide (t < now - 60)) ++ evictOld now q = q :=
  List.takeWhile_append_dropWhile _ q

theorem mem_evicted_lt {now x : ℚ} {q : List ℚ}
    (hx : x ∈ q.takeWhile (fun t => decide (t < now - 60))) : x < now - 60 := by
  simpa using List.mem_takeWhile_imp hx

theorem evictOld_length_le (now : ℚ) (q : List ℚ) :
    (evictOld now q).length ≤ q.length :=
  (List.dropWhile_sublist _).length_le

/-- Core invariant induction for the rate limiter: starting from queue `q`
reached after the admission history `past` (the queue is a suffix of the
history, everything dropped from it is over 60 seconds old, the queue holds
at most `N` timestamps, and every trailing window of the history holds at
most `N` admissions), a valid sequence of further `wait_if_needed` calls
keeps every trailing 60-second window of the history at `≤ N` admissions. -/
theorem countWindow_runCalls_le (N : ℕ) (hN : 1 ≤ N) :
    ∀ (calls : List (ℚ × ℚ)) (q past : List ℚ) (tcur : ℚ),
      ValidTrace N q tcur calls →
      (∃ pre, past = pre ++ q ∧ ∀ x ∈ pre, x < tcur - 60) →
      q.length ≤ N →
      (∀ s : ℚ, countWindow s past ≤ N) →
      ∀ t : ℚ, countWindow t (past ++ (runCalls N q calls).2) ≤ N := by
  intro calls
  induction calls with
  | nil =>
    intro q past tcur _ _ _ hwin t
    simpa [runCalls, countWindow_append, countWindow] using hwin t
  | cons c rest ih =>
    obtain ⟨now, now2⟩ := c
    intro q past tcur hv hsplit hlen hwin t
    simp only [ValidTrace] at hv
    obtain ⟨htc, hsleep, hvrest⟩ := hv
    obtain ⟨pre, hpast, hpre⟩ := hsplit
    obtain ⟨ev, hev⟩ : ∃ ev, q.takeWhile (fun t => decide (t < now - 60)) = ev :=
      ⟨_, rfl⟩
    have hsplitq : ev ++ evictOld now q = q := by
      rw [← hev]; exact evictOld_split now q
    have hevlt : ∀ x ∈ ev, x < now - 60 := by
      intro x hx
      exact mem_evicted_lt (q := q) (hev ▸ hx)
    obtain ⟨q1, hq1e⟩ : ∃ q1, evictOld now q = q1 := ⟨_, rfl⟩
    rw [hq1e] at hsplitq
    have hlen1 : q1.length ≤ N :=
      hq1e ▸ le_trans (evictOld_length_le now q) hlen
    have hN0 : ¬ N = 0 := by omega
    have hgoal : countWindow t (past ++ (runCalls N q ((now, now2) :: rest)).2)
        = countWindow t ((past ++ [now2])
            ++ (runCalls N (waitIfNeeded N q now now2).1 rest).2) := by
      simp [runCalls]
    rw [hgoal]
    by_cases hfull : N ≤ q1.length
    · -- full branch: the call sleeps until the oldest queued admission
      -- is over 60 seconds old, then appends `now2`
      obtain ⟨u0, r0, hq1⟩ : ∃ u0 r0, q1 = u0 :: r0 := by
        cases hq1 : q1 with
        | nil => rw [hq1] at hfull; simp at hfull; omega
        | cons a l => exact ⟨a, l, rfl⟩
      have hfull' : N ≤ r0.length + 1 := by
        rw [hq1] at hfull; simpa using hfull
      have hw : waitIfNeeded N q now now2
          = (dequeAppend N (u0 :: r0) now2, 60 - (now - u0) + 1 / 10) := by
        simp only [waitIfNeeded, hq1e, hq1]
        rw [if_pos (by simpa using hfull')]
      have hq' : dequeAppend N (u0 :: r0) now2 = r0 ++ [now2] := by
        have h2 : ¬ (u0 :: r0).length < N := by simp only [List.length_cons]; omega
        simp only [dequeAppend, if_neg hN0, if_neg h2]
        rfl
      have hu0ge : now - 60 ≤ u0 := evictOld_head_ge (hq1e.trans hq1)
      rw [hw] at hsleep
      simp only at hsleep
      have hu0lt : u0 < now2 - 60 := by linarith
      have hnow2 : now ≤ now2 := by linarith
      have hlenq1 : r0.length + 1 ≤ N := by
        have := hq1 ▸ hlen1
        simpa using this
      have hqdec : q = ev ++ (u0 :: r0) := by rw [← hsplitq, hq1]
      -- the new history/queue split
      have hsplit' : past ++ [now2] = (pre ++ ev ++ [u0]) ++ (r0 ++ [now2]) := by
        rw [hpast, hqdec]; simp
      have hpre' : ∀ x ∈ pre ++ ev ++ [u0], x < now2 - 60 := by
        intro x hx
        rcases List.mem_append.mp hx with hx | hx
        · rcases List.mem_append.mp hx with hx | hx
          · have := hpre x hx; linarith
          · have := hevlt x hx; linarith
        · rcases List.mem_singleton.mp hx with rfl
          exact hu0lt
      -- every trailing window of the extended history stays ≤ N
      have hwin' : ∀ s : ℚ, countWindow s (past ++ [now2]) ≤ N := by
        intro s
        rw [countWindow_append]
        by_cases hsw : s - 60 ≤ now2 ∧ now2 ≤ s
        · have hpastdec : past = (pre ++ ev) ++ (u0 :: r0) := by
            rw [hpast, hqdec]; simp
          have h0 : countWindow s (pre ++ ev) = 0 := by
            apply countWindow_eq_zero
            intro x hx
            rcases List.mem_append.mp hx with hx | hx
            · have := hpre x hx; linarith [hsw.2]
            · have := hevlt x hx; linarith [hsw.2]
          have hu0out : ¬ (s - 60 ≤ u0 ∧ u0 ≤ s) := by
            rintro ⟨h1, -⟩; linarith [hsw.2]
          have hc : countWindow s past ≤ r0.length := by
            rw [hpastdec, countWindow_append, h0, countWindow_cons, if_neg hu0out]
            simpa using countWindow_le_length s r0
          have h1 : countWindow s [now2] ≤ 1 := countWindow_le_length s [now2]
          omega
        · have hz : countWindow s [now2] = 0 := by
            rw [countWindow_cons, if_neg hsw]
            simp [countWindow]
          rw [hz]
          simpa using hwin s
      have hlen' : (waitIfNeeded N q now now2).1.length ≤ N := by
        rw [hw]
        simpa [hq'] using hlenq1
      refine ih (waitIfNeeded N q now now2).1 (past ++ [now2]) now2 hvrest ?_ hlen' hwin' t
      refine ⟨pre ++ ev ++ [u0], ?_, hpre'⟩
      rw [hw, hsplit']
      simp [hq']
    · -- non-full branch: no sleep, `now2` is appended after eviction
      have hw : waitIfNeeded N q now now2
          = (dequeAppend N q1 now2, 0) := by
        simp only [waitIfNeeded, hq1e]
        rw [if_neg hfull]
      have hlt : q1.length < N := by omega
      have hq' : dequeAppend N q1 now2 = q1 ++ [now2] := by
        simp only [dequeAppend, if_neg hN0, if_pos hlt]
      rw [hw] at hsleep
      simp only at hsleep
      have hnow2 : now ≤ now2 := by linarith
      have hpre' : ∀ x ∈ pre ++ ev, x < now2 - 60 := by
        intro x hx
        rcases List.mem_append.mp hx with hx | hx
        · have := hpre x hx; linarith
        · have := hevlt x hx; linarith
      have hwin' : ∀ s : ℚ, countWindow s (past ++ [now2]) ≤ N := by
        intro s
        rw [countWindow_append]
        by_cases hsw : s - 60 ≤ now2 ∧ now2 ≤ s
        · have hpastdec : past = (pre ++ ev) ++ q1 := by
            rw [hpast, ← hsplitq]; simp
          have h0 : countWindow s (pre ++ ev) = 0 := by
            apply countWindow_eq_zero
            intro x hx
            rcases List.mem_append.mp hx with hx | hx
            · have := hpre x hx; linarith [hsw.2]
            · have := hevlt x hx; linarith [hsw.2]
          have hc : countWindow s past ≤ q1.length := by
            rw [hpastdec, countWindow_append, h0]
            simpa using countWindow_le_length s q1
          have h1 : countWindow s [now2] ≤ 1 := countWindow_le_length s [now2]
          omega
        · have hz : countWindow s [now2] = 0 := by
            rw [countWindow_cons, if_neg hsw]
            simp [countWindow]
          rw [hz]
          simpa using hwin s
      have hlen' : (waitIfNeeded N q now now2).1.length ≤ N := by
        rw [hw]
        simp only [hq', List.length_append, List.length_singleton]
        omega
      refine ih (waitIfNeeded N q now now2).1 (past ++ [now2]) now2 hvrest ?_ hlen' hwin' t
      refine ⟨pre ++ ev, ?_, hpre'⟩
      rw [hw, hpast, ← hsplitq]
      simp [hq']

theorem rate_limiter_window_bound (N : ℕ) (hN : 1 ≤ N) (tstart : ℚ)
    (calls : List (ℚ × ℚ)) (hv : ValidTrace N [] tstart calls) (t : ℚ) :
    countWindow t (runCalls N [] calls).2 ≤ N := by
  have := countWindow_runCalls_le N hN calls [] [] tstart hv
    ⟨[], by simp, by simp⟩ (by simp) (by simp [countWindow]) t
  simpa using this

theorem rate_limiter_window_bound_witness :
    countWindow 61 (runCalls 1 [] [(0, 0), (61, 61)]).2 ≤ 1 := by
  refine rate_limiter_window_bound 1 (by norm_num) 0 [(0, 0), (61, 61)] ?_ 61
  refine ⟨by norm_num, ?_, ?_, ?_, trivial⟩
  · norm_num [waitIfNeeded, evictOld, dequeAppend]
  · norm_num [waitIfNeeded, evictOld, dequeAppend]
  · norm_num [waitIfNeeded, evictOld, dequeAppend]

/-- Helper: on an operation that fails at every invocation, the retry loop of
`execute_with_retry` re-raises the error of the last attempt after exactly
`maxRetries` invocations. -/
theorem retryLoop_always_fails {E A : Type} (g : ℕ → E) (maxRetries : ℕ) :
    ∀ (remaining attempt : ℕ) (last : Option E),
      attempt + remaining = maxRetries → 1 ≤ remaining →
      retryLoop (fun j => (.error (g j) : Except E A)) maxRetries remaining attempt last
        = (.error (some (g (maxRetries - 1))), maxRetries) := by
  intro remaining
  induction remaining with
  | zero => intro attempt last _ h1; omega
  | succ m ih =>
    intro attempt last hsum _
    by_cases hm : m = 0
    · subst hm
      have ha : attempt = maxRetries - 1 := by omega
      simp only [retryLoop, ha, if_pos rfl]
      have h1 : maxRetries - 1 + 1 = maxRetries := by omega
      rw [h1]
      simp
    · have ha : ¬ attempt = maxRetries - 1 := by omega
      simp only [retryLoop, if_neg ha]
      exact ih (attempt + 1) (some (g attempt)) (by omega) (by omega)

/-- C2: an operation raising an error on every invocation, run through
`execute_with_retry` with `max_retries = n ≥ 1`, is invoked exactly `n`
times, and the raised error is exactly the one of the `n`-th (last)
invocation (re-raised unchanged). -/
theorem execute_with_retry_exhaustion {E A : Type} (n : ℕ) (hn : 1 ≤ n)
    (g : ℕ → E) :
    executeWithRetry n (fun j => (.error (g j) : Except E A))
      = (.error (some (g (n - 1))), n) :=
  retryLoop_always_fails g n n 0 none (by omega) hn

theorem execute_with_retry_exhaustion_witness :
    executeWithRetry 3 (fun j => (.error j : Except ℕ ℕ))
      = (.error (some 2), 3) :=
  execute_with_retry_exhaustion 3 (by norm_num) (fun j => j)

/-- C4: `get_delay(attempt)` with a jitter draw `j` equals
`min(base_delay * 2^attempt * j, max_delay)`, never exceeds `max_delay`, and
for any jitter draws in `[0.9, 1.1]` is non-decreasing from one attempt to a
later one (hence non-decreasing in expectation over attempts `0..N`). -/
theorem get_delay_spec (base_delay max_delay : ℚ) (hb : 0 ≤ base_delay) :
    (∀ (n : ℕ) (j : ℚ),
      get_delay base_delay max_delay n j = min (base_delay * 2 ^ n * j) max_delay) ∧
    (∀ (n : ℕ) (j : ℚ), get_delay base_delay max_delay n j ≤ max_delay) ∧
    (∀ (n m : ℕ) (j j' : ℚ), n < m → 9/10 ≤ j → j ≤ 11/10 → 9/10 ≤ j' →
      j' ≤ 11/10 →
      get_delay base_delay max_delay n j ≤ get_delay base_delay max_delay m j') := by
  refine ⟨fun n j => rfl, fun n j => min_le_right _ _, ?_⟩
  intro n m j j' hnm hj1 hj2 hj1' hj2'
  have hB : (0:ℚ) ≤ base_delay * 2 ^ n := by positivity
  have hC : (0:ℚ) ≤ base_delay * 2 ^ m := by positivity
  have hpow : base_delay * 2 ^ (n + 1) ≤ base_delay * 2 ^ m :=
    mul_le_mul_of_nonneg_left (pow_le_pow_right₀ (by norm_num) (by omega)) hb
  have he : base_delay * 2 ^ (n + 1) = 2 * (base_delay * 2 ^ n) := by ring
  rw [he] at hpow
  have key : base_delay * 2 ^ n * j ≤ base_delay * 2 ^ m * j' := by
    have h1 : base_delay * 2 ^ n * j ≤ base_delay * 2 ^ n * (11/10) :=
      mul_le_mul_of_nonneg_left hj2 hB
    have h2 : base_delay * 2 ^ m * (9/10) ≤ base_delay * 2 ^ m * j' :=
      mul_le_mul_of_nonneg_left hj1' hC
    nlinarith
  exact min_le_min key le_rfl

theorem get_delay_spec_witness :
    get_delay 1 60 2 1 = min ((1:ℚ) * 2 ^ 2 * 1) 60 ∧
    get_delay 1 60 2 1 ≤ 60 ∧
    get_delay 1 60 0 (11/10) ≤ get_delay 1 60 3 (9/10) := by
  obtain ⟨h1, h2, h3⟩ := get_delay_spec 1 60 (by norm_num)
  exact ⟨h1 2 1, h2 2 1,
    h3 0 3 (11/10) (9/10) (by norm_num) (by norm_num) (by norm_num)
      (by norm_num) (by norm_num)⟩

/-! ### Cache helper lemmas (shared) -/

theorem cacheGet_missing {K P : Type} [DecidableEq K]
    (st : CacheState K P) (k : K) (now : ℚ) (h : st.files k = none) :
    APICache.get st k now = (none, st) := by
  cases hc : st.enabled <;> simp [APICache.get, hc, h]

theorem cacheGet_corrupt {K P : Type} [DecidableEq K]
    (st : CacheState K P) (k : K) (now : ℚ) (h : st.files k = some .corrupt) :
    APICache.get st k now = (none, st) := by
  cases hc : st.enabled <;> simp [APICache.get, hc, h, cacheGetTry]

theorem cacheSet_writeFail {K P : Type} [DecidableEq K]
    (st : CacheState K P) (k : K) (now : ℚ) (d : Option P) :
    APICache.set st k now d false = (false, st) := by
  cases hc : st.enabled <;> simp [APICache.set, hc, APICache.setTry]

theorem cacheGet_hit_state {K P : Type} [DecidableEq K]
    (st : CacheState K P) (k : K) (now : ℚ) {v : P}
    (h : (APICache.get st k now).1 = some v) :
    (APICache.get st k now).2 = st := by
  cases hc : st.enabled with
  | false => simp [APICache.get, hc] at h
  | true =>
    cases hf : st.files k with
    | none => simp [APICache.get, hc, hf] at h
    | some f =>
      cases f with
      | corrupt => simp [APICache.get, hc, hf, cacheGetTry] at h
      | entry created data =>
        by_cases hexp : st.ttl < now - created
        · simp [APICache.get, hc, hf, cacheGetTry, hexp] at h
        · simp [APICache.get, hc, hf, cacheGetTry, hexp]

/-- C7: on an enabled cache with non-negative TTL, `set(url, params, v)`
followed immediately by `get(url, params)` returns `v` unchanged (with no
further state change); and `get` on an entry whose age exceeds the TTL
returns absent and physically removes the entry's cache file. -/
theorem cache_set_get_roundtrip {K P : Type} [DecidableEq K]
    (st : CacheState K P) (k : K) (now : ℚ) (v : Option P)
    (hen : st.enabled = true) (httl : 0 ≤ st.ttl) :
    (APICache.get (APICache.set st k now v true).2 k now).1 = v ∧
    (APICache.get (APICache.set st k now v true).2 k now).2
      = (APICache.set st k now v true).2 ∧
    (∀ (created : ℚ) (d : Option P), st.files k = some (.entry created d) →
      st.ttl < now - created →
      APICache.get st k now = (none, { st with files := eraseFile st.files k })) := by
  have hset : APICache.set st k now v true
      = (true, { st with files := putFile st.files k (.entry now v) }) := by
    simp [APICache.set, APICache.setTry, hen]
  have hfresh : ¬ st.ttl < 0 := not_lt.mpr httl
  refine ⟨?_, ?_, ?_⟩
  · rw [hset]
    simp [APICache.get, cacheGetTry, putFile, hen, hfresh]
  · rw [hset]
    simp [APICache.get, cacheGetTry, putFile, hen, hfresh]
  · intro created d hf hexp
    simp [APICache.get, cacheGetTry, hen, hf, hexp]

theorem cache_set_get_roundtrip_witness :
    (APICache.get (APICache.set cacheStateA 0 5 (some 7) true).2 0 5).1 = some 7 ∧
    APICache.get cacheStateA 0 5
      = (none, { cacheStateA with files := eraseFile cacheStateA.files 0 }) := by
  obtain ⟨h1, h2, h3⟩ :=
    cache_set_get_roundtrip cacheStateA 0 5 (some 7) (by rfl) (by norm_num [cacheStateA])
  exact ⟨h1, h3 (-20) (some 9) (by norm_num [cacheStateA]) (by norm_num [cacheStateA])⟩

/-- C5 counterexample: a corrupt cache file makes
`CachedHTTPClient._load_from_cache` raise (`json.loads` is not wrapped in a
`try/except`), and the error propagates out of `CachedHTTPClient.get` —
contradicting "in no case is the error propagated to the caller". -/
theorem cache_error_propagation_cex :
    chcGet httpStateA 0 true 0 (.resp 200 "body") 0 = .error .cacheParse := by
  simp [chcGet, loadFromCache, httpStateA]

/-- C5 (amended): `APICache.get` and `APICache.set` fully absorb cache I/O
failures — a corrupt or missing file reads as a miss with the state
unchanged, and a failed write reports `False` with the state unchanged
(`CachedHTTPClient._load_from_cache`, by contrast, propagates read errors). -/
theorem apicache_error_absorption {K P : Type} [DecidableEq K]
    (st : CacheState K P) (k : K) (now : ℚ) (d : Option P) :
    (st.files k = some .corrupt → APICache.get st k now = (none, st)) ∧
    (st.files k = none → APICache.get st k now = (none, st)) ∧
    APICache.set st k now d false = (false, st) :=
  ⟨fun h => cacheGet_corrupt st k now h,
   fun h => cacheGet_missing st k now h,
   cacheSet_writeFail st k now d⟩

theorem apicache_error_absorption_witness :
    APICache.get cacheStateB 0 0 = (none, cacheStateB) ∧
    APICache.get cacheStateB 1 0 = (none, cacheStateB) ∧
    APICache.set cacheStateB 0 0 (some 5) false = (false, cacheStateB) :=
  ⟨(apicache_error_absorption cacheStateB 0 0 (some 5)).1 (by simp [cacheStateB]),
   (apicache_error_absorption cacheStateB 1 0 (some 5)).2.1 (by simp [cacheStateB]),
   (apicache_error_absorption cacheStateB 0 0 (some 5)).2.2⟩

/-- C10: a fresh cache file storing an empty-string body is not served:
`if cached_content:` is falsy on `""`, so `CachedHTTPClient.get` takes the
network request path. -/
theorem empty_cached_body_is_miss {K : Type} [DecidableEq K]
    (st : HttpState K) (k : K) (now : ℚ) (net : NetOutcome) (tSave : ℚ)
    (created : ℚ) (hdir : st.hasCacheDir = true)
    (hf : st.files k = some (.entry created ""))
    (hfresh : ¬ st.ttl < now - created) :
    chcGet st k true now net tSave = netRequest true k net tSave st := by
  simp [chcGet, loadFromCache, hdir, hf, hfresh]

theorem empty_cached_body_is_miss_witness :
    chcGet httpStateB 0 true 5 (.resp 200 "xyz") 6
      = netRequest true 0 (.resp 200 "xyz") 6 httpStateB :=
  empty_cached_body_is_miss httpStateB 0 5 (.resp 200 "xyz") 6 0
    (by rfl) (by simp [httpStateB]) (by norm_num [httpStateB])

/-- C3 counterexample: the cache holds a fresh (unexpired) entry for key 0,
yet — because the stored payload is Python `None`, which `cached is not
None` rejects — the fetch does not return it: the delayer sleeps, the
retrier invokes the operation, and the rate limiter records an admission. -/
theorem cache_hit_bypass_cex :
    (srcStateA.cache.files 0 = some (.entry 0 none) ∧
      ¬ srcStateA.cache.ttl < tmA.tGet - 0) ∧
    srcStateA.sleepCount = 0 ∧ srcStateA.limiterQueue = [] ∧
    (fetchWithProtection 10 3 true true true 0
        (fun _ => (.ok (some 5) : Except ℕ (Option ℕ))) tmA srcStateA).2.sleepCount = 1 ∧
    (fetchWithProtection 10 3 true true true 0
        (fun _ => (.ok (some 5) : Except ℕ (Option ℕ))) tmA srcStateA).2.invokeCount = 1 ∧
    (fetchWithProtection 10 3 true true true 0
        (fun _ => (.ok (some 5) : Except ℕ (Option ℕ))) tmA srcStateA).2.limiterQueue = [0] := by
  refine ⟨⟨by simp [srcStateA], by norm_num [srcStateA, tmA]⟩, rfl, rfl, ?_, ?_, ?_⟩ <;>
    norm_num [fetchWithProtection, fetchMissPath, srcStateA, tmA, APICache.get,
      cacheGetTry, executeWithRetry, retryLoop, waitIfNeeded, evictOld,
      dequeAppend, APICache.set, APICache.setTry, putFile]

/-- C3 (amended): when the cache get of the protected pipeline produces a
non-`None` payload (a fresh entry whose stored payload is not `None`), the
payload is returned immediately and the whole state is untouched: no limiter
admission, no delayer sleep, no retrier invocation, no cache write. -/
theorem cache_hit_bypasses_protection {K P E : Type} [DecidableEq K]
    (maxReq maxRetries : ℕ) (writeOk : Bool) (k : K)
    (op : ℕ → Except E (Option P)) (tm : FetchTimes) (st : SourceState K P)
    (v : P) (hhit : (APICache.get st.cache k tm.tGet).1 = some v) :
    fetchWithProtection maxReq maxRetries true true writeOk k op tm st
      = (.ok (some v), st) := by
  have h2 := cacheGet_hit_state st.cache k tm.tGet hhit
  simp [fetchWithProtection, hhit, h2]

theorem cache_hit_bypasses_protection_witness :
    fetchWithProtection 10 3 true true true 0
        (fun _ => (.ok (some 5) : Except ℕ (Option ℕ))) tmA srcStateB
      = (.ok (some 9), srcStateB) :=
  cache_hit_bypasses_protection 10 3 true 0 _ tmA srcStateB 9
    (by norm_num [srcStateB, tmA, APICache.get, cacheGetTry])

/-- C6: when the cache misses and the retrier exhausts all attempts, the
protected fetch raises the error of the last attempt, and the cache is
exactly what the initial read left (nothing is written for the key); in
particular with no pre-existing entry the cache is fully unchanged. -/
theorem fetch_exhaustion_nothing_cached {K P E : Type} [DecidableEq K]
    (maxReq maxRetries : ℕ) (hn : 1 ≤ maxRetries) (writeOk : Bool) (k : K)
    (g : ℕ → E) (tm : FetchTimes) (st : SourceState K P)
    (hmiss : (APICache.get st.cache k tm.tGet).1 = none) :
    (fetchWithProtection maxReq maxRetries true true writeOk k
        (fun j => (.error (g j) : Except E (Option P))) tm st).1
      = .error (some (g (maxRetries - 1))) ∧
    (fetchWithProtection maxReq maxRetries true true writeOk k
        (fun j => (.error (g j) : Except E (Option P))) tm st).2.cache
      = (APICache.get st.cache k tm.tGet).2 ∧
    (st.cache.files k = none →
      (fetchWithProtection maxReq maxRetries true true writeOk k
          (fun j => (.error (g j) : Except E (Option P))) tm st).2.cache
        = st.cache) := by
  have hrr : executeWithRetry maxRetries (fun j => (.error (g j) : Except E (Option P)))
      = (.error (some (g (maxRetries - 1))), maxRetries) :=
    retryLoop_always_fails g maxRetries maxRetries 0 none (by omega) hn
  have hrw : fetchWithProtection maxReq maxRetries true true writeOk k
      (fun j => (.error (g j) : Except E (Option P))) tm st
      = (.error (some (g (maxRetries - 1))),
          { limiterQueue := (waitIfNeeded maxReq st.limiterQueue tm.tNow tm.tNow2).1,
            sleepCount := st.sleepCount + 1,
            invokeCount := st.invokeCount + maxRetries,
            cache := (APICache.get st.cache k tm.tGet).2 }) := by
    simp [fetchWithProtection, hmiss, fetchMissPath, hrr]
  refine ⟨by rw [hrw], by rw [hrw], ?_⟩
  intro h
  rw [hrw]
  have := cacheGet_missing st.cache k tm.tGet h
  rw [this]

theorem fetch_exhaustion_nothing_cached_witness :
    (fetchWithProtection 10 3 true true true 7
        (fun j => (.error j : Except ℕ (Option ℕ))) tmA srcStateB).1
      = .error (some 2) ∧
    (fetchWithProtection 10 3 true true true 7
        (fun j => (.error j : Except ℕ (Option ℕ))) tmA srcStateB).2.cache
      = srcStateB.cache := by
  obtain ⟨h1, h2, h3⟩ := fetch_exhaustion_nothing_cached 10 3 (by norm_num) true 7
    (fun j => j) tmA srcStateB (by simp [srcStateB, tmA, APICache.get])
  exact ⟨h1, h3 (by simp [srcStateB])⟩

/-- C8 counterexample: write a 5-row table for `("market_data","t1")` dated
2024-01-15, write another 5-row table for the same dataset dated 2024-02-15,
and `load_curated("market_data","t1")` returns 10 rows, not the 5 rows of
the table last written — the claim's universally quantified round trip fails
whenever other partition files exist. -/
theorem lake_roundtrip_cex :
    (loadCurated (saveCurated (saveCurated [] "market_data" "t1" dfA
          { year := 2024, month := 1, day := 15 } "data").2
        "market_data" "t1" dfA { year := 2024, month := 2, day := 15 } "data").2
      "market_data" "t1").rows = 10 ∧ dfA.rows = 5 := by
  constructor
  · decide
  · rfl

/-- C8 (amended): when the dataset directory holds no partition file other
than (possibly) the one being written, `save_curated` followed by
`load_curated` for the same domain/dataset yields a table with the written
table's row count and column set; and a dataset with no partition files
loads as the empty table (not an error). -/
theorem lake_roundtrip (store : CuratedStore) (domain dataset filename : String)
    (df : DataFrame) (pdate : PDate)
    (hclean : ∀ e ∈ store, (e.1.domain = domain ∧ e.1.dataset = dataset) →
      e.1 = (saveCurated store domain dataset df pdate filename).1) :
    (loadCurated (saveCurated store domain dataset df pdate filename).2
        domain dataset).rows = df.rows ∧
    (loadCurated (saveCurated store domain dataset df pdate filename).2
        domain dataset).cols = df.cols ∧
    (∀ (d s : String), datasetFiles store d s = [] →
      loadCurated store d s = emptyFrame) := by
  have key : ∀ (p : CuratedPath), p.domain = domain → p.dataset = dataset →
      (∀ e ∈ store, (e.1.domain = domain ∧ e.1.dataset = dataset) → e.1 = p) →
      datasetFiles (writeParquet store p df) domain dataset = [(p, df)] := by
    intro p hpd hps hcl
    unfold datasetFiles writeParquet
    rw [List.filter_append]
    have h1 : List.filter (fun e => decide (e.1.domain = domain ∧ e.1.dataset = dataset))
        (List.filter (fun e => decide (e.1 ≠ p)) store) = [] := by
      rw [List.filter_eq_nil_iff]
      intro e he
      rw [List.mem_filter] at he
      simp only [decide_eq_true_eq] at he ⊢
      intro hind
      exact he.2 (hcl e he.1 hind)
    rw [h1]
    simp [hpd, hps]
  have hfiles : datasetFiles (saveCurated store domain dataset df pdate filename).2
      domain dataset
      = [((saveCurated store domain dataset df pdate filename).1, df)] :=
    key (saveCurated store domain dataset df pdate filename).1 rfl rfl hclean
  refine ⟨?_, ?_, ?_⟩
  · rw [loadCurated, hfiles]
    simp [concatFrames]
  · rw [loadCurated, hfiles]
    simp [concatFrames]
  · intro d s h
    rw [loadCurated, h]

theorem lake_roundtrip_witness :
    (loadCurated (saveCurated [] "market_data" "t1" dfA
        { year := 2024, month := 1, day := 15 } "data").2 "market_data" "t1").rows
      = dfA.rows ∧
    (loadCurated (saveCurated [] "market_data" "t1" dfA
        { year := 2024, month := 1, day := 15 } "data").2 "market_data" "t1").cols
      = dfA.cols := by
  obtain ⟨h1, h2, h3⟩ := lake_roundtrip [] "market_data" "t1" "data" dfA
    { year := 2024, month := 1, day := 15 } (by simp)
  exact ⟨h1, h2⟩

/-- Auxiliary: removing the entries with path `p` does not change a lookup
for a different path `q`. -/
theorem find?_filter_ne (l : ManifestStore) (p q : ManifestPath) (hqp : ¬ q = p) :
    (List.filter (fun e => decide (e.1 ≠ p)) l).find? (fun e => decide (e.1 = q))
      = l.find? (fun e => decide (e.1 = q)) := by
  induction l with
  | nil => rfl
  | cons a l ih =>
    rw [List.filter_cons]
    by_cases ha : a.1 = p
    · have haq : ¬ a.1 = q := fun h => hqp (by rw [← h, ha])
      rw [if_neg (by simp [ha])]
      rw [List.find?_cons_of_neg _ (by simpa using haq)]
      exact ih
    · by_cases haq : a.1 = q
      · rw [if_pos (by simp [ha])]
        rw [List.find?_cons_of_pos _ (by simpa using haq),
          List.find?_cons_of_pos _ (by simpa using haq)]
      · rw [if_pos (by simp [ha])]
        rw [List.find?_cons_of_neg _ (by simpa using haq),
          List.find?_cons_of_neg _ (by simpa using haq)]
        exact ih

/-- C9 counterexample: two `save_manifest` calls for the same
source/dataset/domain within the same wall-clock second produce the same
file name, and the second call overwrites the first manifest's contents
(`file_count` 0 becomes 1) — the earlier manifest does not survive
unchanged. -/
theorem manifest_overwrite_cex :
    manifestCall2.1 = manifestCall1.1 ∧
    (readManifest manifestCall1.2 manifestCall1.1).map (fun m => m.file_count)
      = some 0 ∧
    (readManifest manifestCall2.2 manifestCall1.1).map (fun m => m.file_count)
      = some 1 := by
  refine ⟨rfl, ?_, ?_⟩ <;> decide

/-- C9 (amended): each `save_manifest` call writes one new manifest whose
`file_count` is `len(files)`, and leaves the manifest file at every *other*
path (in particular every manifest whose source or second-resolution
timestamp differs) unchanged; manifests written in the same second for the
same source/domain/dataset are overwritten. -/
theorem save_manifest_append_only (store : ManifestStore)
    (source dataset domain period_start period_end : String)
    (files : List FileMeta) (source_url ingestion_status stampSec nowIso : String)
    (p : ManifestPath)
    (hp : ¬ p = (saveManifest store source dataset domain period_start period_end
        files source_url ingestion_status stampSec nowIso).1) :
    readManifest (saveManifest store source dataset domain period_start period_end
        files source_url ingestion_status stampSec nowIso).2 p
      = readManifest store p ∧
    (readManifest (saveManifest store source dataset domain period_start period_end
          files source_url ingestion_status stampSec nowIso).2
        (saveManifest store source dataset domain period_start period_end
          files source_url ingestion_status stampSec nowIso).1).map
        (fun m => m.file_count)
      = some files.length := by
  have key1 : ∀ (q : ManifestPath) (m : ManifestData), ¬ p = q →
      readManifest (writeManifestFile store q m) p = readManifest store p := by
    intro q m hpq
    unfold readManifest writeManifestFile
    rw [List.find?_append, find?_filter_ne store q p hpq]
    have hnone : [(q, m)].find? (fun e => decide (e.1 = p)) = none := by
      rw [List.find?_cons_of_neg _ (by simpa using fun h' => hpq h'.symm)]
      rfl
    rw [hnone]
    cases h : store.find? (fun e => decide (e.1 = p)) <;> rfl
  have key2 : ∀ (q : ManifestPath) (m : ManifestData),
      readManifest (writeManifestFile store q m) q = some m := by
    intro q m
    unfold readManifest writeManifestFile
    rw [List.find?_append]
    have h1 : (List.filter (fun e => decide (e.1 ≠ q)) store).find?
        (fun e => decide (e.1 = q)) = none := by
      rw [List.find?_eq_none]
      intro x hx
      rw [List.mem_filter] at hx
      simpa using hx.2
    rw [h1, List.find?_cons_of_pos _ (by simp)]
    rfl
  refine ⟨key1 _ _ hp, ?_⟩
  have h2 : readManifest (saveManifest store source dataset domain period_start
      period_end files source_url ingestion_status stampSec nowIso).2
      (saveManifest store source dataset domain period_start period_end files
        source_url ingestion_status stampSec nowIso).1
      = some { source := source, dataset := dataset, domain := domain,
               period_start := period_start, period_end := period_end,
               file_count := files.length, files := files,
               source_url := source_url, schema_version := "1.0",
               ingestion_timestamp := nowIso,
               ingestion_status := ingestion_status } := key2 _ _
  rw [h2]
  rfl

theorem save_manifest_append_only_witness :
    readManifest (saveManifest manifestCall1.2 "src" "ds" "dom" "2024-01-01"
        "2024-01-31" [fmA] "u" "success" "20240101_120001" "T2").2 manifestCall1.1
      = readManifest manifestCall1.2 manifestCall1.1 ∧
    (readManifest (saveManifest manifestCall1.2 "src" "ds" "dom" "2024-01-01"
          "2024-01-31" [fmA] "u" "success" "20240101_120001" "T2").2
        (saveManifest manifestCall1.2 "src" "ds" "dom" "2024-01-01"
          "2024-01-31" [fmA] "u" "success" "20240101_120001" "T2").1).map
        (fun m => m.file_count)
      = some 1 := by
  obtain ⟨h1, h2⟩ := save_manifest_append_only manifestCall1.2 "src" "ds" "dom"
    "2024-01-01" "2024-01-31" [fmA] "u" "success" "20240101_120001" "T2"
    manifestCall1.1 (by decide)
  exact ⟨h1, h2⟩

end PFDH
